import Mathlib

/-!
Verification of the `link` package (src/link.go): a one-way byte-copy loop
(`OneWayLinkSpec`) and a two-way relay (`TwoWayLinkSpec`).

The embedding is a shallow one:

* A Go `error` value is `GoErr` (`io.EOF`, `io.ErrShortWrite`, or any other
  error identified by a numeric code); "nil" is `Option.none`.
* A call `src.Read(buf)` is modelled by a `ReadEv`: the bytes the source would
  deliver (truncated at the call site to the buffer length, since a reader can
  fill at most `len(buf)` bytes) together with the error value returned.  A
  source is the finite list of read results a run observes, in order.
* A destination is a deterministic function from the index of the write call
  and the bytes passed to `(wn, ew)`, the pair `dst.Write` returns.
* A buffer is modelled by its capacity; `none` is Go's `nil` slice.
* The loop additionally returns the trace of iterations (bytes read, and the
  write call performed, if any), so that theorems can speak about the calls
  made against the endpoints.
-/

namespace GoLink

/-- Go `error` values relevant to the link package: `io.EOF`,
`io.ErrShortWrite`, and any other error value, identified by a code. -/
inductive GoErr
  | eof
  | shortWrite
  | other (code : Nat)
deriving DecidableEq, Repr

/-- The result of one `src.Read(buf)` call: the bytes the source delivers
(clipped to the buffer capacity at the call site) and the error value `er`
returned alongside (`none` = nil, `some .eof` = `io.EOF`, ...). -/
structure ReadEv where
  chunk : List Nat
  er : Option GoErr
deriving DecidableEq, Repr

/-- A deterministic destination: the response `(wn, ew)` of the `dst.Write`
call as a function of the write-call index and the bytes passed to it. -/
def Dst : Type := Nat → List Nat → Nat × Option GoErr

/-- One iteration of the copy loop as observed on the endpoints: the bytes
read (`rchunk`, already clipped to the buffer), and, when `rn > 0`, the write
call performed: the bytes passed to `dst.Write` and the `(wn, ew)` it
returned. -/
structure Iter where
  rchunk : List Nat
  wrote : Option (List Nat × Nat × Option GoErr)
deriving DecidableEq, Repr

/-- Endpoint operations, for stating which calls the copy performs. -/
inductive Op
  | read (chunk : List Nat)
  | write (chunk : List Nat) (wn : Nat) (ew : Option GoErr)
  | close
deriving DecidableEq, Repr

/-- The flat list of endpoint operations of a run. `OneWayLinkSpec` only ever
produces `read` and `write` operations; `Op.close` exists so that the absence
of close calls is a statement, not a typing accident. -/
def opsOf (its : List Iter) : List Op :=
  its.flatMap fun it =>
    Op.read it.rchunk ::
      (match it.wrote with
        | some (t, wn, ew) => [Op.write t wn ew]
        | none => [])

/-- The bytes handed to `dst.Write` over a run, concatenated in order. -/
def writtenBytes (its : List Iter) : List Nat :=
  its.flatMap fun it =>
    match it.wrote with
    | some (t, _, _) => t
    | none => []

/-- `src/link.go` line 9: `defaultBufferSize = 1024`. -/
def defaultBufferSize : Nat := 1024

/-- `if cb != nil { tbuf = cb(tbuf) }` (src/link.go lines 38–40): an absent
callback is the identity. -/
def applyCb (cb : Option (List Nat → List Nat)) (c : List Nat) : List Nat :=
  match cb with
  | some f => f c
  | none => c

/-- `if wn > 0 { written += int64(wn) }` (src/link.go lines 42–44). -/
def addPos (written wn : Nat) : Nat :=
  if 0 < wn then written + wn else written

/-- `if er != io.EOF { err = er }` (src/link.go lines 54–57): `io.EOF` is not
surfaced as an error. -/
def eofFilter : GoErr → Option GoErr
  | .eof => none
  | e => some e

/-- The per-iteration cancellation check (src/link.go lines 29–35).  The Go
code runs `select { case <-ctx.Done(): break; default: }`; the `break` exits
the `select` statement only, not the surrounding `for` loop, so the computed
value is discarded by the loop.  `ctx` is `none` for a nil context, otherwise
the predicate telling whether `ctx.Done()` is closed at a given iteration. -/
def ctxFired : Option (Nat → Bool) → Nat → Bool
  | some d, k => d k
  | none, _ => false

/-- The copy loop of `OneWayLinkSpec` (src/link.go lines 27–60), from an
intermediate state: `es` the remaining read results, `k` the index of the
next write call, `written` the running total.  Returns the final total, the
error returned (`none` for clean end-of-input), and the iterations performed
from this point on.  A source whose read results run out without a final
error/EOF would block the Go loop forever; the model stops there, and
theorems that need real termination require a terminal event. -/
def linkLoop (ctx : Option (Nat → Bool)) (dst : Dst) (cap : Nat)
    (cb : Option (List Nat → List Nat)) :
    List ReadEv → Nat → Nat → Nat × Option GoErr × List Iter
  | [], _, written => (written, none, [])
  | ev :: rest, k, written =>
    let c := ev.chunk.take cap
    let _cancel := ctxFired ctx k
    if 0 < c.length then
      let tbuf := applyCb cb c
      match dst k tbuf with
      | (wn, some e) =>
        (addPos written wn, some e, [⟨c, some (tbuf, wn, some e)⟩])
      | (wn, none) =>
        if wn ≠ c.length then
          (addPos written wn, some .shortWrite, [⟨c, some (tbuf, wn, none)⟩])
        else
          match ev.er with
          | some e => (addPos written wn, eofFilter e, [⟨c, some (tbuf, wn, none)⟩])
          | none =>
            let r := linkLoop ctx dst cap cb rest (k + 1) (addPos written wn)
            (r.1, r.2.1, ⟨c, some (tbuf, wn, none)⟩ :: r.2.2)
    else
      match ev.er with
      | some e => (written, eofFilter e, [⟨c, none⟩])
      | none =>
        let r := linkLoop ctx dst cap cb rest k written
        (r.1, r.2.1, ⟨c, none⟩ :: r.2.2)

/-- `if buf == nil { buf = make([]byte, defaultBufferSize) }`
(src/link.go lines 24–26): the effective buffer capacity. -/
def bufCap : Option Nat → Nat
  | none => defaultBufferSize
  | some c => c

/-- `OneWayLinkSpec` (src/link.go line 23): resolve the buffer and run the
copy loop from the initial state. -/
def OneWayLinkSpec (ctx : Option (Nat → Bool)) (es : List ReadEv) (dst : Dst)
    (buf : Option Nat) (cb : Option (List Nat → List Nat)) :
    Nat × Option GoErr × List Iter :=
  linkLoop ctx dst (bufCap buf) cb es 0 0

/-- `OneWayLink` (src/link.go lines 15–17): the shortcut with a nil buffer. -/
def OneWayLink (ctx : Option (Nat → Bool)) (es : List ReadEv) (dst : Dst)
    (cb : Option (List Nat → List Nat)) : Nat × Option GoErr × List Iter :=
  OneWayLinkSpec ctx es dst none cb

/-- A destination that accepts every byte offered: `Write` reports the full
length of the chunk and no error. -/
def acceptAll : Dst := fun _ chunk => (chunk.length, none)

/-- A transform that doubles each chunk (the spec's example of a
length-changing transform). -/
def doubleChunk (c : List Nat) : List Nat := c ++ c

/-!
The two-way relay (src/link.go lines 73–93).  Each direction's copy is a
`OneWayLinkSpec` run; what remains after each run returns is the tail code of
each flow, which touches shared variables:

* goroutine (direction h1→h2):
  `w1, err = OneWayLinkSpec(...)`; `if err != nil { e1 = err }`;
  `h1.Close()`; `h2.Close()`; `close(exit)`
* caller flow (direction h2→h1):
  `w2, err = OneWayLinkSpec(...)`; `if err != nil { e2 = err }`;
  `h2.Close()`; `h1.Close()`; `<-exit`

`err` is the single local variable declared on line 74, shared by both flows.
The tails are modelled as sequences of atomic actions on the shared state and
run under an arbitrary interleaving (a schedule saying which flow steps
next); `<-exit` blocks until `close(exit)` has run.
-/

/-- The shared state of `TwoWayLinkSpec`: the shared `err` variable, the
named results `e1`/`e2`, the number of `Close` calls performed on each
endpoint, and whether `close(exit)` has run. -/
structure TwoWayState where
  err : Option GoErr
  e1 : Option GoErr
  e2 : Option GoErr
  closes1 : Nat
  closes2 : Nat
  exitClosed : Bool
deriving DecidableEq, Repr

/-- The atomic actions of the two tail flows of `TwoWayLinkSpec`. -/
inductive TAct
  | setErr (v : Option GoErr)
  | guardE1
  | guardE2
  | close1
  | close2
  | closeExit
  | waitExit
deriving DecidableEq, Repr

/-- Effect of one action on the shared state. -/
def TAct.step : TAct → TwoWayState → TwoWayState
  | .setErr v, s => { s with err := v }
  | .guardE1, s => if s.err ≠ none then { s with e1 := s.err } else s
  | .guardE2, s => if s.err ≠ none then { s with e2 := s.err } else s
  | .close1, s => { s with closes1 := s.closes1 + 1 }
  | .close2, s => { s with closes2 := s.closes2 + 1 }
  | .closeExit, s => { s with exitClosed := true }
  | .waitExit, s => s

/-- Whether an action can run now: `<-exit` blocks until `close(exit)`. -/
def TAct.ready : TAct → TwoWayState → Bool
  | .waitExit, s => s.exitClosed
  | _, _ => true

/-- Run the two flows under a schedule (`true` = the goroutine steps,
`false` = the caller's flow steps); a flow chosen while blocked does not
advance.  Returns the final state and the unexecuted remainder of each flow
(both empty iff the schedule drives the whole relay to completion). -/
def interleave : List Bool → List TAct → List TAct → TwoWayState →
    TwoWayState × List TAct × List TAct
  | [], pa, pb, s => (s, pa, pb)
  | true :: sch, [], pb, s => interleave sch [] pb s
  | true :: sch, a :: pa, pb, s =>
    if a.ready s then interleave sch pa pb (a.step s)
    else interleave sch (a :: pa) pb s
  | false :: sch, pa, [], s => interleave sch pa [] s
  | false :: sch, pa, b :: pb, s =>
    if b.ready s then interleave sch pa pb (b.step s)
    else interleave sch pa (b :: pb) s

/-- Tail of the goroutine flow (src/link.go lines 76–84), given the error
its `OneWayLinkSpec` run returned. -/
def flowA (r1err : Option GoErr) : List TAct :=
  [.setErr r1err, .guardE1, .close1, .close2, .closeExit]

/-- Tail of the caller's flow (src/link.go lines 85–91), given the error its
`OneWayLinkSpec` run returned. -/
def flowB (r2err : Option GoErr) : List TAct :=
  [.setErr r2err, .guardE2, .close2, .close1, .waitExit]

/-- `TwoWayLinkSpec` (src/link.go line 73).  `es1`/`dst1` are the read
results from `h1` and the write behaviour of `h2` seen by the h1→h2
direction (run in the goroutine with `buf1`/`cb1`); `es2`/`dst2` likewise
for the h2→h1 direction run in the caller's flow.  `sch` is the interleaving
of the two tail flows.  Returns the quadruple `(w1, w2, e1, e2)` together
with the final shared state and the unexecuted remainders of the flows. -/
def TwoWayLinkSpec (ctx : Option (Nat → Bool))
    (es1 : List ReadEv) (dst1 : Dst) (es2 : List ReadEv) (dst2 : Dst)
    (buf1 buf2 : Option Nat) (cb1 cb2 : Option (List Nat → List Nat))
    (sch : List Bool) :
    (Nat × Nat × Option GoErr × Option GoErr) ×
      TwoWayState × List TAct × List TAct :=
  let r1 := OneWayLinkSpec ctx es1 dst1 buf1 cb1
  let r2 := OneWayLinkSpec ctx es2 dst2 buf2 cb2
  let fin := interleave sch (flowA r1.2.1) (flowB r2.2.1)
    { err := none, e1 := none, e2 := none,
      closes1 := 0, closes2 := 0, exitClosed := false }
  ((r1.1, r2.1, fin.1.e1, fin.1.e2), fin)

/-- A schedule interleaving the two error guards: the goroutine stores its
error into the shared `err`, the caller's flow then overwrites `err` and runs
its own guard, and only then does the goroutine's guard run. -/
def raceSchedule : List Bool :=
  [true, false, false, true, true, true, true, false, false, false]

/-! ## Theorems -/

/-- The copy loop never looks at the cancellation value: the `break` inside
the `select` (src/link.go line 32) exits only the `select`, so the loop state
is the same as with a nil context. -/
theorem linkLoop_ctx (ctx : Option (Nat → Bool)) (dst : Dst) (cap : Nat)
    (cb : Option (List Nat → List Nat)) :
    ∀ (es : List ReadEv) (k w : Nat),
      linkLoop ctx dst cap cb es k w = linkLoop none dst cap cb es k w := by
  intro es
  induction es with
  | nil => intro k w; rfl
  | cons ev rest ih =>
    intro k w
    simp only [linkLoop]
    split
    · split
      · rfl
      · split
        · rfl
        · split
          · rfl
          · rw [ih]
    · split
      · rfl
      · rw [ih]

/-- C3: the per-iteration cancellation check never terminates the copy loop:
`OneWayLinkSpec` returns the same `(written, error)` result (and performs the
same endpoint operations) whether the cancellation signal is absent (`none`),
never fired, or fired at any set of iterations. -/
theorem C3_cancellation_never_stops (ctx : Option (Nat → Bool))
    (es : List ReadEv) (dst : Dst) (buf : Option Nat)
    (cb : Option (List Nat → List Nat)) :
    OneWayLinkSpec ctx es dst buf cb = OneWayLinkSpec none es dst buf cb := by
  simp only [OneWayLinkSpec]
  exact linkLoop_ctx ctx dst (bufCap buf) cb es 0 0

/-- C6: `OneWayLink` is exactly `OneWayLinkSpec` with an unset buffer, and an
unset buffer behaves as a buffer of capacity `defaultBufferSize = 1024`,
the single capacity used by every iteration of the run. -/
theorem C6_default_buffer (ctx : Option (Nat → Bool)) (es : List ReadEv)
    (dst : Dst) (cb : Option (List Nat → List Nat)) :
    OneWayLink ctx es dst cb = OneWayLinkSpec ctx es dst (some 1024) cb ∧
      OneWayLinkSpec ctx es dst none cb =
        OneWayLinkSpec ctx es dst (some defaultBufferSize) cb ∧
      bufCap none = 1024 :=
  ⟨rfl, rfl, rfl⟩

/-- The copy loop performs only read and write calls from any state. -/
theorem linkLoop_no_close (ctx : Option (Nat → Bool)) (dst : Dst) (cap : Nat)
    (cb : Option (List Nat → List Nat)) :
    ∀ (es : List ReadEv) (k w : Nat),
      Op.close ∉ opsOf (linkLoop ctx dst cap cb es k w).2.2 := by
  intro es
  induction es with
  | nil => intro k w; simp [linkLoop, opsOf]
  | cons ev rest ih =>
    intro k w
    simp only [linkLoop]
    split
    · split
      · simp [opsOf]
      · split
        · simp [opsOf]
        · split
          · simp [opsOf]
          · simpa [opsOf] using ih _ _
    · split
      · simp [opsOf]
      · simpa [opsOf] using ih k w

/-- C8: `OneWayLinkSpec` performs no endpoint operation other than reads on
the source and writes on the destination; in particular it never invokes
close on either endpoint. -/
theorem C8_never_closes (ctx : Option (Nat → Bool)) (es : List ReadEv)
    (dst : Dst) (buf : Option Nat) (cb : Option (List Nat → List Nat)) :
    Op.close ∉ opsOf (OneWayLinkSpec ctx es dst buf cb).2.2 :=
  linkLoop_no_close ctx dst (bufCap buf) cb es 0 0

/-- C8 witness: a concrete run touching both a successful write and an EOF
read contains no close operation. -/
theorem C8_never_closes_witness :
    Op.close ∉ opsOf (OneWayLinkSpec none
      [⟨[1, 2], none⟩, ⟨[], some GoErr.eof⟩] acceptAll (some 4) none).2.2 :=
  C8_never_closes none [⟨[1, 2], none⟩, ⟨[], some GoErr.eof⟩] acceptAll
    (some 4) none

/-- Accumulating a write count: the `wn > 0` guard is redundant over `Nat`. -/
theorem addPos_eq (w wn : Nat) : addPos w wn = w + wn := by
  unfold addPos
  split
  · rfl
  · omega

/-- C5: if a write call returns an error `e` together with a partial count
`wn`, the copy terminates immediately: the iteration trace ends with that
write — no further reads or writes happen, whatever read results (`rest`)
remain — and the result is the running total before the call plus `wn`,
together with `e`.  Stated on `linkLoop` at an arbitrary intermediate state
`(k, w)`; `OneWayLinkSpec` is `linkLoop` at the initial state, so this covers
every iteration of a run, with `w` the bytes written strictly before the
failing call. -/
theorem C5_write_error_stops (ctx : Option (Nat → Bool)) (dst : Dst)
    (cap : Nat) (cb : Option (List Nat → List Nat)) (ev : ReadEv)
    (rest : List ReadEv) (k w wn : Nat) (e : GoErr)
    (hc : ev.chunk.take cap ≠ [])
    (hw : dst k (applyCb cb (ev.chunk.take cap)) = (wn, some e)) :
    linkLoop ctx dst cap cb (ev :: rest) k w =
      (w + wn, some e,
        [⟨ev.chunk.take cap,
          some (applyCb cb (ev.chunk.take cap), wn, some e)⟩]) := by
  have hlen : 0 < (ev.chunk.take cap).length := List.length_pos.mpr hc
  simp only [linkLoop]
  rw [if_pos hlen, hw]
  simp [addPos_eq]

/-- C5 witness: at a state with 5 bytes already written, a write reporting
`(1, other 2)` ends the run at once with total 6 and error `other 2`, the
remaining read result never being consumed. -/
theorem C5_write_error_stops_witness :
    (⟨[8, 8, 8], none⟩ : ReadEv).chunk.take 4 ≠ [] ∧
    (fun (_ : Nat) (_ : List Nat) => (1, some (GoErr.other 2)) : Dst) 0
        (applyCb none ((⟨[8, 8, 8], none⟩ : ReadEv).chunk.take 4)) =
      (1, some (GoErr.other 2)) ∧
    linkLoop none (fun _ _ => (1, some (GoErr.other 2))) 4 none
        [⟨[8, 8, 8], none⟩, ⟨[7], some .eof⟩] 0 5 =
      (6, some (GoErr.other 2),
        [⟨[8, 8, 8], some ([8, 8, 8], 1, some (GoErr.other 2))⟩]) :=
  ⟨by decide, rfl,
    C5_write_error_stops none (fun _ _ => (1, some (GoErr.other 2))) 4 none
      ⟨[8, 8, 8], none⟩ [⟨[7], some .eof⟩] 0 5 1 (GoErr.other 2)
      (by decide) rfl⟩

/-- C10: if a single write call returns both a short byte count (fewer bytes
than the chunk it was asked to write) and a non-nil error `e`, the copy
returns `e` — the write-error check on line 45 of src/link.go runs before the
short-write check on line 49, so the ShortWrite classification never replaces
the write's own error. -/
theorem C10_write_error_beats_short (ctx : Option (Nat → Bool)) (dst : Dst)
    (cap : Nat) (cb : Option (List Nat → List Nat)) (ev : ReadEv)
    (rest : List ReadEv) (k w wn : Nat) (e : GoErr)
    (hc : ev.chunk.take cap ≠ [])
    (_hshort : wn < (applyCb cb (ev.chunk.take cap)).length)
    (hw : dst k (applyCb cb (ev.chunk.take cap)) = (wn, some e)) :
    (linkLoop ctx dst cap cb (ev :: rest) k w).2.1 = some e := by
  have hlen : 0 < (ev.chunk.take cap).length := List.length_pos.mpr hc
  simp only [linkLoop]
  rw [if_pos hlen, hw]

/-- C10 witness: the write is asked for the two-byte transformed chunk
`[2, 2]`, reports `(0, other 9)` — short and failing — and the run returns
`other 9`, not ShortWrite. -/
theorem C10_write_error_beats_short_witness :
    (⟨[2], none⟩ : ReadEv).chunk.take 4 ≠ [] ∧
    (0 : Nat) < (applyCb (some doubleChunk)
      ((⟨[2], none⟩ : ReadEv).chunk.take 4)).length ∧
    (fun (_ : Nat) (_ : List Nat) => (0, some (GoErr.other 9)) : Dst) 0
        (applyCb (some doubleChunk) ((⟨[2], none⟩ : ReadEv).chunk.take 4)) =
      (0, some (GoErr.other 9)) ∧
    (linkLoop none (fun _ _ => (0, some (GoErr.other 9))) 4
        (some doubleChunk) [⟨[2], none⟩] 0 0).2.1 = some (GoErr.other 9) :=
  ⟨by decide, by decide, rfl,
    C10_write_error_beats_short none (fun _ _ => (0, some (GoErr.other 9)))
      4 (some doubleChunk) ⟨[2], none⟩ [] 0 0 0 (GoErr.other 9)
      (by decide) (by decide) rfl⟩

/-- C9: a read that delivers bytes together with end-of-input does not have
its chunk discarded: the chunk is transformed (`applyCb cb`) and passed to a
write call, whatever the destination then answers is accumulated into the
byte count, and — when the write reports exactly the bytes read and no
error — the run returns that total with no error.  Stated on `linkLoop` at
an arbitrary intermediate state, which covers every iteration of a
`OneWayLinkSpec` run. -/
theorem C9_eof_chunk_not_discarded (ctx : Option (Nat → Bool)) (dst : Dst)
    (cap : Nat) (cb : Option (List Nat → List Nat)) (ev : ReadEv)
    (rest : List ReadEv) (k w : Nat)
    (her : ev.er = some GoErr.eof)
    (hc : ev.chunk.take cap ≠ []) :
    (linkLoop ctx dst cap cb (ev :: rest) k w).2.2 =
      [⟨ev.chunk.take cap,
        some (applyCb cb (ev.chunk.take cap),
          (dst k (applyCb cb (ev.chunk.take cap))).1,
          (dst k (applyCb cb (ev.chunk.take cap))).2)⟩] ∧
    (linkLoop ctx dst cap cb (ev :: rest) k w).1 =
      w + (dst k (applyCb cb (ev.chunk.take cap))).1 ∧
    (dst k (applyCb cb (ev.chunk.take cap)) =
        ((ev.chunk.take cap).length, none) →
      linkLoop ctx dst cap cb (ev :: rest) k w =
        (w + (ev.chunk.take cap).length, none,
          [⟨ev.chunk.take cap,
            some (applyCb cb (ev.chunk.take cap),
              (ev.chunk.take cap).length, none)⟩])) := by
  have hlen : 0 < (ev.chunk.take cap).length := List.length_pos.mpr hc
  rcases hdst : dst k (applyCb cb (ev.chunk.take cap)) with ⟨wn, ew⟩
  cases ew with
  | some e =>
    refine ⟨?_, ?_, ?_⟩
    · simp only [linkLoop]
      rw [if_pos hlen, hdst]
    · simp only [linkLoop]
      rw [if_pos hlen, hdst]
      simp [addPos_eq]
    · intro hok
      simp at hok
  | none =>
    by_cases hwn : wn = (ev.chunk.take cap).length
    · subst hwn
      refine ⟨?_, ?_, ?_⟩
      · simp only [linkLoop]
        rw [if_pos hlen, hdst, her]
        simp [-List.length_take]
      · simp only [linkLoop]
        rw [if_pos hlen, hdst, her]
        simp [-List.length_take, addPos_eq]
      · intro hok
        simp only [linkLoop]
        rw [if_pos hlen, hdst, her]
        simp [-List.length_take, addPos_eq, eofFilter]
    · refine ⟨?_, ?_, ?_⟩
      · simp only [linkLoop]
        rw [if_pos hlen, hdst]
        simp [-List.length_take, hwn]
      · simp only [linkLoop]
        rw [if_pos hlen, hdst]
        simp [-List.length_take, hwn, addPos_eq]
      · intro hok
        exact absurd (congrArg Prod.fst hok) hwn

/-- C9 witness: the source delivers `[6, 6]` together with EOF from a state
with 10 bytes already written; the chunk is written whole and the run
returns `(12, nil)`. -/
theorem C9_eof_chunk_not_discarded_witness :
    (⟨[6, 6], some GoErr.eof⟩ : ReadEv).er = some GoErr.eof ∧
    (⟨[6, 6], some GoErr.eof⟩ : ReadEv).chunk.take 4 ≠ [] ∧
    linkLoop none acceptAll 4 none [⟨[6, 6], some GoErr.eof⟩] 0 10 =
      (12, none, [⟨[6, 6], some ([6, 6], 2, none)⟩]) :=
  ⟨rfl, by decide,
    (C9_eof_chunk_not_discarded none acceptAll 4 none
      ⟨[6, 6], some GoErr.eof⟩ [] 0 10 rfl (by decide)).2.2 rfl⟩

/-- Unfolding `writtenBytes` over the head iteration. -/
theorem writtenBytes_cons (it : Iter) (its : List Iter) :
    writtenBytes (it :: its) =
      (match it.wrote with
        | some (t, _, _) => t
        | none => []) ++ writtenBytes its := by
  simp [writtenBytes]

/-- Identity copy from any intermediate state: with no transform and a
destination accepting every byte, a run over error-free read results followed
by a final EOF result adds exactly the bytes read to the running total,
returns no error, and hands the read bytes to the destination in order. -/
theorem identityRunAux (ctx : Option (Nat → Bool)) (cap : Nat) (fin : ReadEv)
    (hfin : fin.er = some GoErr.eof) (hffit : fin.chunk.length ≤ cap) :
    ∀ (init : List ReadEv) (k w : Nat),
      (∀ ev ∈ init, ev.er = none) →
      (∀ ev ∈ init, ev.chunk.length ≤ cap) →
      (linkLoop ctx acceptAll cap none (init ++ [fin]) k w).1 =
          w + ((init ++ [fin]).flatMap ReadEv.chunk).length ∧
        (linkLoop ctx acceptAll cap none (init ++ [fin]) k w).2.1 = none ∧
        writtenBytes (linkLoop ctx acceptAll cap none
            (init ++ [fin]) k w).2.2 =
          (init ++ [fin]).flatMap ReadEv.chunk := by
  intro init
  induction init with
  | nil =>
    intro k w _ _
    have hc : fin.chunk.take cap = fin.chunk := List.take_of_length_le hffit
    by_cases hne : 0 < fin.chunk.length
    · refine ⟨?_, ?_, ?_⟩ <;>
        simp [linkLoop, hc, hne, applyCb, acceptAll, hfin, eofFilter,
          addPos_eq, writtenBytes]
    · have hnil : fin.chunk = [] := by
        cases h : fin.chunk with
        | nil => rfl
        | cons a l => rw [h] at hne; simp at hne
      refine ⟨?_, ?_, ?_⟩ <;>
        simp [linkLoop, hc, hnil, hfin, eofFilter, writtenBytes]
  | cons ev init ih =>
    intro k w hinit hfit
    have hev : ev.er = none := hinit ev (List.mem_cons_self ev init)
    have hevfit : ev.chunk.length ≤ cap := hfit ev (List.mem_cons_self ev init)
    have hc : ev.chunk.take cap = ev.chunk := List.take_of_length_le hevfit
    by_cases hne : 0 < ev.chunk.length
    · have ihh := ih (k + 1) (w + ev.chunk.length)
        (fun e he => hinit e (List.mem_cons_of_mem _ he))
        (fun e he => hfit e (List.mem_cons_of_mem _ he))
      have hunf : linkLoop ctx acceptAll cap none ((ev :: init) ++ [fin]) k w =
          ((linkLoop ctx acceptAll cap none (init ++ [fin]) (k + 1)
              (w + ev.chunk.length)).1,
            (linkLoop ctx acceptAll cap none (init ++ [fin]) (k + 1)
              (w + ev.chunk.length)).2.1,
            ⟨ev.chunk, some (ev.chunk, ev.chunk.length, none)⟩ ::
              (linkLoop ctx acceptAll cap none (init ++ [fin]) (k + 1)
                (w + ev.chunk.length)).2.2) := by
        simp [linkLoop, hc, hne, applyCb, acceptAll, hev, addPos_eq]
      rw [hunf]
      refine ⟨?_, ihh.2.1, ?_⟩
      · rw [ihh.1]
        simp
        omega
      · rw [writtenBytes_cons, ihh.2.2]
        simp
    · have hnil : ev.chunk = [] := by
        cases h : ev.chunk with
        | nil => rfl
        | cons a l => rw [h] at hne; simp at hne
      have ihh := ih k w
        (fun e he => hinit e (List.mem_cons_of_mem _ he))
        (fun e he => hfit e (List.mem_cons_of_mem _ he))
      have hunf : linkLoop ctx acceptAll cap none ((ev :: init) ++ [fin]) k w =
          ((linkLoop ctx acceptAll cap none (init ++ [fin]) k w).1,
            (linkLoop ctx acceptAll cap none (init ++ [fin]) k w).2.1,
            ⟨[], none⟩ ::
              (linkLoop ctx acceptAll cap none (init ++ [fin]) k w).2.2) := by
        simp [linkLoop, hc, hnil, hev]
      rw [hunf]
      refine ⟨?_, ihh.2.1, ?_⟩
      · rw [ihh.1]
        simp [hnil]
      · rw [writtenBytes_cons, ihh.2.2]
        simp [hnil]

/-- C4: with the identity transform (absent callback) and a destination that
accepts all bytes, a finite source — error-free reads followed by a read
reporting end-of-input — is copied exactly: the destination receives,
byte-for-byte and in order, precisely the bytes read, the returned count is
the total input length, and no error is returned. -/
theorem C4_identity_copy (ctx : Option (Nat → Bool)) (buf : Option Nat)
    (init : List ReadEv) (fin : ReadEv)
    (hinit : ∀ ev ∈ init, ev.er = none)
    (hfin : fin.er = some GoErr.eof)
    (hfit : ∀ ev ∈ init ++ [fin], ev.chunk.length ≤ bufCap buf) :
    (OneWayLinkSpec ctx (init ++ [fin]) acceptAll buf none).1 =
        ((init ++ [fin]).flatMap ReadEv.chunk).length ∧
      (OneWayLinkSpec ctx (init ++ [fin]) acceptAll buf none).2.1 = none ∧
      writtenBytes (OneWayLinkSpec ctx (init ++ [fin]) acceptAll
          buf none).2.2 =
        (init ++ [fin]).flatMap ReadEv.chunk := by
  have h := identityRunAux ctx (bufCap buf) fin hfin
    (hfit fin (by simp)) init 0 0
    hinit (fun e he => hfit e (by simp [he]))
  simpa [OneWayLinkSpec] using h

/-- C4 witness: the source delivers "he" then "y" then EOF through a 4-byte
buffer; the destination receives `[104, 101, 121]` and the call returns
`(3, nil)`. -/
theorem C4_identity_copy_witness :
    (∀ ev ∈ [(⟨[104, 101], none⟩ : ReadEv)], ev.er = none) ∧
    (⟨[121], some GoErr.eof⟩ : ReadEv).er = some GoErr.eof ∧
    (OneWayLinkSpec none [⟨[104, 101], none⟩, ⟨[121], some GoErr.eof⟩]
        acceptAll (some 4) none).1 = 3 ∧
    (OneWayLinkSpec none [⟨[104, 101], none⟩, ⟨[121], some GoErr.eof⟩]
        acceptAll (some 4) none).2.1 = none ∧
    writtenBytes (OneWayLinkSpec none
        [⟨[104, 101], none⟩, ⟨[121], some GoErr.eof⟩]
        acceptAll (some 4) none).2.2 = [104, 101, 121] := by
  have h := C4_identity_copy none (some 4) [⟨[104, 101], none⟩]
    ⟨[121], some GoErr.eof⟩ (by decide) rfl (by decide)
  exact ⟨by decide, rfl, by simpa using h.1, h.2.1, by simpa using h.2.2⟩

/-- Whether an iteration trace ends in a short write in the sense of
src/link.go line 49: in its last iteration the write returned no error and a
byte count different from the number of bytes read (`rchunk.length`) in that
iteration — the transformed chunk's length plays no role. -/
def shortEnd : List Iter → Bool
  | [] => false
  | [it] =>
    match it.wrote with
    | some (_, wn, none) => decide (wn ≠ it.rchunk.length)
    | _ => false
  | _ :: it :: rest => shortEnd (it :: rest)

/-- `shortEnd` ignores all but the last iteration. -/
theorem shortEnd_cons_of_ne_nil (a : Iter) (l : List Iter) (h : l ≠ []) :
    shortEnd (a :: l) = shortEnd l := by
  cases l with
  | nil => exact absurd rfl h
  | cons b bs => rfl

/-- A nonempty source prefix always leaves at least one iteration in the
trace. -/
theorem linkLoop_trace_ne_nil (ctx : Option (Nat → Bool)) (dst : Dst)
    (cap : Nat) (cb : Option (List Nat → List Nat)) (ev : ReadEv)
    (rest : List ReadEv) (k w : Nat) :
    (linkLoop ctx dst cap cb (ev :: rest) k w).2.2 ≠ [] := by
  simp only [linkLoop]
  split
  · split
    · simp
    · split
      · simp
      · split
        · simp
        · simp
  · split
    · simp
    · simp

/-- The run returns ShortWrite exactly when its trace ends in a short write
in the sense of line 49 — the write of the last iteration returned no error
and a count different from the bytes read — provided neither endpoint itself
fabricates the `io.ErrShortWrite` value.  Stated on `linkLoop` from any
state. -/
theorem shortWriteIffAux (ctx : Option (Nat → Bool)) (dst : Dst) (cap : Nat)
    (cb : Option (List Nat → List Nat))
    (hdst : ∀ k t, (dst k t).2 ≠ some GoErr.shortWrite) :
    ∀ (es : List ReadEv) (k w : Nat),
      (∀ ev ∈ es, ev.er ≠ some GoErr.shortWrite) →
      ((linkLoop ctx dst cap cb es k w).2.1 = some GoErr.shortWrite ↔
        shortEnd (linkLoop ctx dst cap cb es k w).2.2 = true) := by
  intro es
  induction es with
  | nil => intro k w _; simp [linkLoop, shortEnd]
  | cons ev rest ih =>
    intro k w hsrc
    have hev : ev.er ≠ some GoErr.shortWrite := hsrc ev (List.mem_cons_self _ _)
    have hrest : ∀ e ∈ rest, e.er ≠ some GoErr.shortWrite :=
      fun e he => hsrc e (List.mem_cons_of_mem _ he)
    by_cases hne : 0 < (ev.chunk.take cap).length
    · rcases hd : dst k (applyCb cb (ev.chunk.take cap)) with ⟨wn, ew⟩
      have hdd := hdst k (applyCb cb (ev.chunk.take cap))
      rw [hd] at hdd
      cases ew with
      | some e =>
        have hunf : linkLoop ctx dst cap cb (ev :: rest) k w =
            (addPos w wn, some e,
              [⟨ev.chunk.take cap,
                some (applyCb cb (ev.chunk.take cap), wn, some e)⟩]) := by
          simp only [linkLoop]
          rw [if_pos hne, hd]
        rw [hunf]
        simp [shortEnd]
        exact fun h => hdd (by simp [h])
      | none =>
        by_cases hwn : wn = (ev.chunk.take cap).length
        · subst hwn
          cases her : ev.er with
          | some e =>
            have hunf : linkLoop ctx dst cap cb (ev :: rest) k w =
                (addPos w (ev.chunk.take cap).length, eofFilter e,
                  [⟨ev.chunk.take cap,
                    some (applyCb cb (ev.chunk.take cap),
                      (ev.chunk.take cap).length, none)⟩]) := by
              simp only [linkLoop]
              rw [if_pos hne, hd, her]
              simp [-List.length_take]
            rw [hunf]
            cases e with
            | eof => simp [shortEnd, eofFilter]
            | shortWrite => exact absurd her hev
            | other c => simp [shortEnd, eofFilter]
          | none =>
            have hunf : linkLoop ctx dst cap cb (ev :: rest) k w =
                ((linkLoop ctx dst cap cb rest (k + 1)
                    (addPos w (ev.chunk.take cap).length)).1,
                  (linkLoop ctx dst cap cb rest (k + 1)
                    (addPos w (ev.chunk.take cap).length)).2.1,
                  ⟨ev.chunk.take cap,
                    some (applyCb cb (ev.chunk.take cap),
                      (ev.chunk.take cap).length, none)⟩ ::
                    (linkLoop ctx dst cap cb rest (k + 1)
                      (addPos w (ev.chunk.take cap).length)).2.2) := by
              simp only [linkLoop]
              rw [if_pos hne, hd, her]
              simp [-List.length_take]
            have h1 : (linkLoop ctx dst cap cb (ev :: rest) k w).2.1 =
                (linkLoop ctx dst cap cb rest (k + 1)
                  (addPos w (ev.chunk.take cap).length)).2.1 := by rw [hunf]
            have h2 : (linkLoop ctx dst cap cb (ev :: rest) k w).2.2 =
                ⟨ev.chunk.take cap,
                  some (applyCb cb (ev.chunk.take cap),
                    (ev.chunk.take cap).length, none)⟩ ::
                  (linkLoop ctx dst cap cb rest (k + 1)
                    (addPos w (ev.chunk.take cap).length)).2.2 := by rw [hunf]
            rw [h1, h2]
            cases rest with
            | nil => simp [linkLoop, shortEnd]
            | cons b bs =>
              rw [shortEnd_cons_of_ne_nil _ _
                (linkLoop_trace_ne_nil ctx dst cap cb b bs (k + 1)
                  (addPos w (ev.chunk.take cap).length))]
              exact ih (k + 1) (addPos w (ev.chunk.take cap).length) hrest
        · have hunf : linkLoop ctx dst cap cb (ev :: rest) k w =
              (addPos w wn, some GoErr.shortWrite,
                [⟨ev.chunk.take cap,
                  some (applyCb cb (ev.chunk.take cap), wn, none)⟩]) := by
            simp only [linkLoop]
            rw [if_pos hne, hd]
            simp [-List.length_take, hwn]
          rw [hunf]
          simp [-List.length_take, shortEnd, hwn]
    · cases her : ev.er with
      | some e =>
        have hunf : linkLoop ctx dst cap cb (ev :: rest) k w =
            (w, eofFilter e, [⟨ev.chunk.take cap, none⟩]) := by
          simp only [linkLoop]
          rw [if_neg hne, her]
        rw [hunf]
        cases e with
        | eof => simp [shortEnd, eofFilter]
        | shortWrite => exact absurd her hev
        | other c => simp [shortEnd, eofFilter]
      | none =>
        have hunf : linkLoop ctx dst cap cb (ev :: rest) k w =
            ((linkLoop ctx dst cap cb rest k w).1,
              (linkLoop ctx dst cap cb rest k w).2.1,
              ⟨ev.chunk.take cap, none⟩ ::
                (linkLoop ctx dst cap cb rest k w).2.2) := by
          simp only [linkLoop]
          rw [if_neg hne, her]
        have h1 : (linkLoop ctx dst cap cb (ev :: rest) k w).2.1 =
            (linkLoop ctx dst cap cb rest k w).2.1 := by rw [hunf]
        have h2 : (linkLoop ctx dst cap cb (ev :: rest) k w).2.2 =
            ⟨ev.chunk.take cap, none⟩ ::
              (linkLoop ctx dst cap cb rest k w).2.2 := by rw [hunf]
        rw [h1, h2]
        cases rest with
        | nil => simp [linkLoop, shortEnd]
        | cons b bs =>
          rw [shortEnd_cons_of_ne_nil _ _
            (linkLoop_trace_ne_nil ctx dst cap cb b bs k w)]
          exact ih k w hrest

/-- C1 (amended): `OneWayLinkSpec` returns the ShortWrite error if and only
if, in the last iteration of its trace, the write call returned no error and
a byte count different from the number of bytes READ in that iteration (the
untransformed chunk's length, `rn` on line 49 of src/link.go) — not the
length of the possibly-transformed chunk passed to `Write` — provided
neither the source nor the destination returns the `io.ErrShortWrite` value
as its own error. -/
theorem C1_short_write_iff (ctx : Option (Nat → Bool)) (es : List ReadEv)
    (dst : Dst) (buf : Option Nat) (cb : Option (List Nat → List Nat))
    (hdst : ∀ k t, (dst k t).2 ≠ some GoErr.shortWrite)
    (hsrc : ∀ ev ∈ es, ev.er ≠ some GoErr.shortWrite) :
    (OneWayLinkSpec ctx es dst buf cb).2.1 = some GoErr.shortWrite ↔
      shortEnd (OneWayLinkSpec ctx es dst buf cb).2.2 = true :=
  shortWriteIffAux ctx dst (bufCap buf) cb hdst es 0 0 hsrc

/-- C1 witness: a run with the accept-everything destination neither returns
ShortWrite nor has a short-ending trace; a run whose destination reports one
byte fewer returns ShortWrite and has a short-ending trace. -/
theorem C1_short_write_iff_witness :
    (∀ k t, (acceptAll k t).2 ≠ some GoErr.shortWrite) ∧
    (∀ ev ∈ [(⟨[1], none⟩ : ReadEv), ⟨[], some GoErr.eof⟩],
      ev.er ≠ some GoErr.shortWrite) ∧
    ((OneWayLinkSpec none [⟨[1], none⟩, ⟨[], some GoErr.eof⟩] acceptAll
        (some 4) none).2.1 = some GoErr.shortWrite ↔
      shortEnd (OneWayLinkSpec none [⟨[1], none⟩, ⟨[], some GoErr.eof⟩]
        acceptAll (some 4) none).2.2 = true) :=
  ⟨fun k t => by simp [acceptAll], by decide,
    C1_short_write_iff none [⟨[1], none⟩, ⟨[], some GoErr.eof⟩] acceptAll
      (some 4) none (fun k t => by simp [acceptAll]) (by decide)⟩

/-- C1 counterexample: a source delivers the single byte `5` (one byte read),
the doubling transform turns it into the two-byte chunk `[5, 5]`, and the
destination accepts it whole: the write call is passed `[5, 5]` and returns
`(2, nil)` — all bytes it was asked to write, with no error — yet the run
terminates with `io.ErrShortWrite`, because line 49 of src/link.go compares
the bytes written (2) with the bytes read (1), not with the length of the
transformed chunk.  This refutes the claim that a write writing the full
transformed chunk is never reported as ShortWrite. -/
theorem C1_full_write_reported_short :
    OneWayLinkSpec none [⟨[5], none⟩] acceptAll (some 8) (some doubleChunk) =
      (2, some .shortWrite, [⟨[5], some ([5, 5], 2, none)⟩]) := by decide

/-- C2: with the length-changing (doubling) transform and a destination that
accepts every byte offered, the copy does not complete cleanly: the source
delivers `[3, 4]` with EOF, the transformed chunk `[3, 4, 3, 4]` is written
whole (the write returns `(4, nil)`), and the run nevertheless returns
`(4, io.ErrShortWrite)` instead of the `(4, nil)` the spec promises, because
line 49 of src/link.go compares bytes written with bytes read. -/
theorem C2_doubling_transform_fails :
    OneWayLinkSpec none [⟨[3, 4], some .eof⟩] acceptAll (some 8)
      (some doubleChunk) =
      (4, some .shortWrite, [⟨[3, 4], some ([3, 4, 3, 4], 4, none)⟩]) := by
  decide

/-- C7: the endpoint1→endpoint2 direction terminates with the read error
`other 1` while the endpoint2→endpoint1 direction reaches clean end-of-input,
yet under `raceSchedule` — the goroutine stores its error into the shared
`err` variable (src/link.go line 77), the caller's flow overwrites `err` with
its own nil result (line 85) before the goroutine's `if err != nil` check
(line 78) runs — the relay returns `e1 = nil`: the clean end-of-input of one
direction suppresses the other direction's error.  Both flows run to
completion (both remainders are empty). -/
theorem C7_clean_eof_suppresses_error :
    (OneWayLinkSpec none [⟨[9], some (.other 1)⟩] acceptAll (some 4)
        none).2.1 = some (.other 1) ∧
    (OneWayLinkSpec none [⟨[], some .eof⟩] acceptAll (some 4) none).2.1 =
      none ∧
    TwoWayLinkSpec none [⟨[9], some (.other 1)⟩] acceptAll
        [⟨[], some .eof⟩] acceptAll (some 4) (some 4) none none
        raceSchedule =
      ((1, 0, none, none), ⟨none, none, none, 2, 2, true⟩, [], []) := by
  refine ⟨by decide, by decide, by decide⟩

end GoLink
